import Mathlib

/-!
# Verification of the chooui playback-orchestration core

A shallow embedding, in Lean 4, of the playback queue, the event
dispatcher, and the audio-engine worker of the `chooui` jukebox
(Rust), together with proofs and refutations of the frozen claims
about them.

The embedding follows the modules that the crate root (`src/main.rs`,
`mod actions; mod model; mod player;`) actually compiles:

* `src/model/queue.rs` — the playback `Queue` (history / future
  segments, duration aggregates, mutex-published snapshot);
* `src/actions/events.rs` — the dispatcher loop `process_events`,
  embedded here one iteration at a time;
* `src/player/mod.rs` and `src/player/commands.rs` — the audio-engine
  worker's state computation and per-iteration event processing.

Rust `i64`/`i32` values are modelled as `Int`, `u64` as `Nat`; none of
the claims depends on wrap-around behaviour.  The mutex around the
published snapshot is modelled away: the dispatcher thread is the only
writer, and the claims are about the snapshot's contents.
-/

namespace Chooui

/-- A track record, embedded from `TrackInfo` in `src/model/mod.rs`. -/
structure TrackInfo where
  track_id : Int
  track_title : String
  track_number : Int
  duration : Int
  genre : Option String
  year : Option Int
  album_title : String
  artist_name : String
  filename : String
deriving DecidableEq, Repr

/-- Sum of the `duration` fields of a list of tracks (the
`iter().map(|t| t.duration).sum()` pattern of `Queue::sync_tracks`). -/
def sumDurations (ts : List TrackInfo) : Int :=
  (ts.map (fun t => t.duration)).sum

/-- The playback queue, embedded from `Queue` in `src/model/queue.rs`.
The `tracks` field is the contents of the `Arc<Mutex<Vec<TrackInfo>>>`
snapshot published to the presentation layer; `queued` is the
`VecDeque` of future tracks and `played` the history `Vec`. -/
structure Queue where
  tracks : List TrackInfo
  queued : List TrackInfo
  played : List TrackInfo
  total_duration : Int
  queued_duration : Int
  played_duration : Int
deriving DecidableEq, Repr

namespace Queue

/-- `Queue::new`: everything empty, aggregates zero. -/
def new : Queue :=
  { tracks := [], queued := [], played := []
    total_duration := 0, queued_duration := 0, played_duration := 0 }

/-- `Queue::sync_tracks`: recompute the three duration aggregates from
the segments and rewrite the published snapshot to
`played ++ queued`. -/
def sync_tracks (q : Queue) : Queue :=
  let pd := sumDurations q.played
  let qd := sumDurations q.queued
  { q with
    played_duration := pd
    queued_duration := qd
    total_duration := pd + qd
    tracks := q.played ++ q.queued }

/-- `Queue::add_tracks`: extend `queued` at the tail, then
`sync_tracks`. -/
def add_tracks (q : Queue) (ts : List TrackInfo) : Queue :=
  sync_tracks { q with queued := q.queued ++ ts }

/-- `Queue::remove_tracks`: retain, in both segments, only the tracks
whose id is not in the removal set, then `sync_tracks`.  The Rust
`HashSet` membership test is list membership here. -/
def remove_tracks (q : Queue) (track_ids : List Int) : Queue :=
  sync_tracks
    { q with
      played := q.played.filter (fun t => ¬ t.track_id ∈ track_ids)
      queued := q.queued.filter (fun t => ¬ t.track_id ∈ track_ids) }

/-- `Queue::shuffle`: the in-place RNG shuffle of `queued` is modelled
by an explicit rearrangement function `σ` applied to `queued` (the
real shuffle is the special case where `σ` permutes its argument),
followed by `sync_tracks`.  No theorem below depends on what `σ`
does. -/
def shuffle (q : Queue) (σ : List TrackInfo → List TrackInfo) : Queue :=
  sync_tracks { q with queued := σ q.queued }

/-- `Queue::clear`: empty both segments, then `sync_tracks`. -/
def clear (q : Queue) : Queue :=
  sync_tracks { q with queued := [], played := [] }

/-- `Queue::reset`: repeatedly pop the last element of `played` and
push it to the front of `queued` (the `while let Some(track) =
self.played.pop()` loop); note that, unlike the four operations above,
it does not call `sync_tracks`. -/
def reset (q : Queue) : Queue :=
  { q with
    played := []
    queued := q.played.reverse.foldl (fun acc t => t :: acc) q.queued }

/-- `Queue::current`: `played.last()`. -/
def current (q : Queue) : Option TrackInfo :=
  q.played.getLast?

/-- `Queue::next`: move the head of `queued` (if any) to the tail of
`played`; return the new `played.last()` together with the updated
queue.  Does not call `sync_tracks`. -/
def next (q : Queue) : Option TrackInfo × Queue :=
  match q.queued with
  | [] => (q.played.getLast?, q)
  | t :: rest =>
    let q' := { q with queued := rest, played := q.played ++ [t] }
    (q'.played.getLast?, q')

/-- `Queue::previous`: move the last element of `played` (if any) to
the front of `queued`; return the new `played.last()` together with
the updated queue.  Does not call `sync_tracks`. -/
def previous (q : Queue) : Option TrackInfo × Queue :=
  match q.played.getLast? with
  | Option.none => (q.played.getLast?, q)
  | Option.some t =>
    let q' := { q with played := q.played.dropLast, queued := t :: q.queued }
    (q'.played.getLast?, q')

end Queue

/-- One mutating operation on the queue, for reasoning about arbitrary
operation sequences.  `shuffle` carries the rearrangement function
that models the RNG permutation. -/
inductive QOp where
  | add (ts : List TrackInfo)
  | remove (ids : List Int)
  | shuffle (σ : List TrackInfo → List TrackInfo)
  | clear
  | reset
  | next
  | previous

/-- Apply one operation to a queue. -/
def Queue.applyOp (q : Queue) : QOp → Queue
  | QOp.add ts => q.add_tracks ts
  | QOp.remove ids => q.remove_tracks ids
  | QOp.shuffle σ => q.shuffle σ
  | QOp.clear => q.clear
  | QOp.reset => q.reset
  | QOp.next => q.next.2
  | QOp.previous => q.previous.2

/-- Apply a sequence of operations, left to right. -/
def Queue.applyOps (q : Queue) (ops : List QOp) : Queue :=
  ops.foldl Queue.applyOp q

/-- The duration aggregates of a queue agree with its segments. -/
def aggSynced (q : Queue) : Prop :=
  q.played_duration = sumDurations q.played ∧
  q.queued_duration = sumDurations q.queued ∧
  q.total_duration = q.played_duration + q.queued_duration

/-- The three duration aggregate fields of `q'` equal those of `q`. -/
def aggUnchanged (q q' : Queue) : Prop :=
  q'.total_duration = q.total_duration ∧
  q'.queued_duration = q.queued_duration ∧
  q'.played_duration = q.played_duration

/-- The total-duration invariant of the claims: the stored
`total_duration` equals the sum of the durations in the current
`played` segment plus the sum in the current `queued` segment. -/
def totalInv (q : Queue) : Prop :=
  q.total_duration = sumDurations q.played + sumDurations q.queued

lemma sumDurations_append (l₁ l₂ : List TrackInfo) :
    sumDurations (l₁ ++ l₂) = sumDurations l₁ + sumDurations l₂ := by
  simp [sumDurations]

lemma sumDurations_cons (t : TrackInfo) (l : List TrackInfo) :
    sumDurations (t :: l) = t.duration + sumDurations l := by
  simp [sumDurations]

lemma sumDurations_nil : sumDurations [] = 0 := rfl

lemma reverse_foldl_cons (l acc : List TrackInfo) :
    l.reverse.foldl (fun a t => t :: a) acc = l ++ acc := by
  induction l generalizing acc with
  | nil => rfl
  | cons x tl ih =>
    simp only [List.reverse_cons, List.foldl_append, List.foldl_cons,
      List.foldl_nil, ih, List.cons_append]

lemma getLast?_eq_some_split (l : List TrackInfo) (t : TrackInfo)
    (h : l.getLast? = Option.some t) : l = l.dropLast ++ [t] := by
  cases l with
  | nil => simp at h
  | cons x tl =>
    have hne : (x :: tl) ≠ ([] : List TrackInfo) := by simp
    rw [List.getLast?_eq_getLast _ hne] at h
    have := List.dropLast_append_getLast hne
    rw [Option.some_inj] at h
    rw [h] at this
    exact this.symm

lemma totalInv_applyOp (q : Queue) (op : QOp) (h : totalInv q) :
    totalInv (q.applyOp op) := by
  cases op with
  | add ts =>
    simp [Queue.applyOp, Queue.add_tracks, Queue.sync_tracks, totalInv]
  | remove ids =>
    simp [Queue.applyOp, Queue.remove_tracks, Queue.sync_tracks, totalInv]
  | shuffle σ =>
    simp [Queue.applyOp, Queue.shuffle, Queue.sync_tracks, totalInv]
  | clear =>
    simp [Queue.applyOp, Queue.clear, Queue.sync_tracks, totalInv, sumDurations]
  | reset =>
    simp only [Queue.applyOp, Queue.reset, totalInv, reverse_foldl_cons,
      sumDurations_append] at h ⊢
    simpa [sumDurations] using h
  | next =>
    simp only [Queue.applyOp, Queue.next] at *
    cases hq : q.queued with
    | nil => simpa [hq] using h
    | cons t rest =>
      simp only [totalInv, sumDurations_append] at h ⊢
      rw [hq, sumDurations_cons] at h
      simp [sumDurations, h]; ring
  | previous =>
    simp only [Queue.applyOp, Queue.previous] at *
    cases hp : q.played.getLast? with
    | none => simpa [hp] using h
    | some t =>
      have hsplit := getLast?_eq_some_split q.played t hp
      simp only [totalInv] at h ⊢
      rw [hsplit, sumDurations_append, sumDurations_cons, sumDurations_nil] at h
      simp only [sumDurations_cons]
      omega

lemma totalInv_applyOps (q : Queue) (ops : List QOp) (h : totalInv q) :
    totalInv (q.applyOps ops) := by
  induction ops generalizing q with
  | nil => simpa [Queue.applyOps] using h
  | cons op rest ih =>
    rw [Queue.applyOps, List.foldl_cons]
    exact ih _ (totalInv_applyOp q op h)

/-- **C3.** For every sequence of queue operations (`add_tracks`,
`remove_tracks`, `shuffle`, `clear`, `reset`, `next`, `previous`)
applied to `Queue::new()`, the stored `total_duration` equals the sum
of the durations of the tracks currently in the `played` segment plus
the sum of the durations of the tracks currently in the `queued`
segment. -/
theorem total_duration_invariant (ops : List QOp) :
    totalInv (Queue.new.applyOps ops) :=
  totalInv_applyOps Queue.new ops
    (by simp [totalInv, Queue.new, sumDurations])

/-- A sample track used for concrete evaluations. -/
def trackA : TrackInfo :=
  { track_id := 1, track_title := "Alpha", track_number := 1
    duration := 180, genre := Option.none, year := Option.none
    album_title := "Album One", artist_name := "Artist One"
    filename := "alpha.mp3" }

/-- A second sample track, with a different file name. -/
def trackB : TrackInfo :=
  { track_id := 2, track_title := "Beta", track_number := 2
    duration := 200, genre := Option.none, year := Option.none
    album_title := "Album One", artist_name := "Artist One"
    filename := "beta.mp3" }

/-- **C4, counterexample.** The claim says the duration aggregates are
recomputed after *every* mutating call, including `next`; but after
`Queue::new().add_tracks([trackA])` followed by `next()`, the stored
`played_duration` is still `0` while the `played` segment now holds a
track of duration `180`: `next` does not call `sync_tracks`. -/
theorem duration_aggregates_stale_after_next :
    ((Queue.new.add_tracks [trackA]).next.2.played_duration = 0 ∧
      sumDurations ((Queue.new.add_tracks [trackA]).next.2.played) = 180) ∧
    (Queue.new.add_tracks [trackA]).next.2.played_duration ≠
      sumDurations ((Queue.new.add_tracks [trackA]).next.2.played) := by
  refine ⟨⟨rfl, rfl⟩, ?_⟩
  decide

/-- **C4, amended.** The aggregates are recomputed (and match the
segments) after `add_tracks`, `remove_tracks`, `shuffle` and `clear`
— the operations that call `sync_tracks`; `next`, `previous` and
`reset` leave all three aggregate fields unchanged instead of
recomputing them, so after those calls `played_duration` and
`queued_duration` need not match their segments (only the total keeps
matching, per the C3 invariant). -/
theorem duration_aggregates_recomputed (q : Queue) (ts : List TrackInfo)
    (ids : List Int) (σ : List TrackInfo → List TrackInfo) :
    aggSynced (q.add_tracks ts) ∧ aggSynced (q.remove_tracks ids) ∧
    aggSynced (q.shuffle σ) ∧ aggSynced q.clear ∧
    aggUnchanged q q.next.2 ∧ aggUnchanged q q.previous.2 ∧
    aggUnchanged q q.reset := by
  refine ⟨?_, ?_, ?_, ?_, ?_, ?_, ?_⟩
  · simp [Queue.add_tracks, Queue.sync_tracks, aggSynced]
  · simp [Queue.remove_tracks, Queue.sync_tracks, aggSynced]
  · simp [Queue.shuffle, Queue.sync_tracks, aggSynced]
  · simp [Queue.clear, Queue.sync_tracks, aggSynced]
  · cases hq : q.queued <;> simp [Queue.next, hq, aggUnchanged]
  · cases hp : q.played.getLast? <;> simp [Queue.previous, hp, aggUnchanged]
  · simp [Queue.reset, aggUnchanged]

/-- **C9.** For every queue whose `queued` segment is non-empty,
`next()` followed immediately by `previous()` restores the exact
prior queue — both segments, the snapshot, the aggregates, and hence
the current track (`played.last()`). -/
theorem next_previous_roundtrip (q : Queue) (h : q.queued ≠ []) :
    (q.next.2.previous).2 = q ∧
    (q.next.2.previous).2.current = q.current := by
  have hmain : (q.next.2.previous).2 = q := by
    cases hqq : q.queued with
    | nil => exact absurd hqq h
    | cons t rest =>
      simp only [Queue.next, Queue.previous, hqq, List.getLast?_concat,
        List.dropLast_concat]
      rw [← hqq]
  exact ⟨hmain, by rw [hmain]⟩

/-- **C9, witness.** The roundtrip theorem applied to the concrete
one-track queue `Queue::new().add_tracks([trackA])`. -/
theorem next_previous_roundtrip_witness :
    (Queue.new.add_tracks [trackA]).queued ≠ [] ∧
    (((Queue.new.add_tracks [trackA]).next.2.previous).2 =
        Queue.new.add_tracks [trackA] ∧
      ((Queue.new.add_tracks [trackA]).next.2.previous).2.current =
        (Queue.new.add_tracks [trackA]).current) :=
  ⟨by decide, next_previous_roundtrip (Queue.new.add_tracks [trackA]) (by decide)⟩

/-- **C10.** The published snapshot (`Queue::tracks`) is left
completely unchanged by `next`, `previous` and `reset`, and is
rewritten to the `played` segment followed by the `queued` segment by
`add_tracks`, `remove_tracks`, `shuffle` and `clear` (the operations
that call `sync_tracks`). -/
theorem snapshot_frame (q : Queue) (ts : List TrackInfo) (ids : List Int)
    (σ : List TrackInfo → List TrackInfo) :
    (q.next.2.tracks = q.tracks ∧ q.previous.2.tracks = q.tracks ∧
      q.reset.tracks = q.tracks) ∧
    ((q.add_tracks ts).tracks = (q.add_tracks ts).played ++ (q.add_tracks ts).queued ∧
      (q.remove_tracks ids).tracks =
        (q.remove_tracks ids).played ++ (q.remove_tracks ids).queued ∧
      (q.shuffle σ).tracks = (q.shuffle σ).played ++ (q.shuffle σ).queued ∧
      q.clear.tracks = q.clear.played ++ q.clear.queued) := by
  refine ⟨⟨?_, ?_, ?_⟩, ?_, ?_, ?_, ?_⟩
  · cases hq : q.queued <;> simp [Queue.next, hq]
  · cases hp : q.played.getLast? <;> simp [Queue.previous, hp]
  · simp [Queue.reset]
  · simp [Queue.add_tracks, Queue.sync_tracks]
  · simp [Queue.remove_tracks, Queue.sync_tracks]
  · simp [Queue.shuffle, Queue.sync_tracks]
  · simp [Queue.clear, Queue.sync_tracks]

/-! ## The event dispatcher (`src/actions/events.rs`)

The crate compiles `src/actions/events.rs` (via `mod actions` in
`main.rs`); the similar files under `src/events/` are not referenced
from the crate root.  `process_events` there is a
`while let Ok(event) = app.event_rx.recv()` loop: it first breaks on
`ExitApplication`, then matches on the event, then redraws.  We embed
one loop iteration as a function from the pre-state and the received
event to a `StepResult`, which records whether the loop continues
(`cont`), returns `Ok` ending the loop (`ret` — both the
`ExitApplication` break and the early `return Ok(())` inside the
`TrackFinished` arm), or aborts with an error propagated by `?`
(`err`).  The `sendOk` parameter says whether the audio-player
command channel still has a live receiver: `AudioPlayer::play_file`
succeeds and delivers the command when it is `true` and returns an
error when it is `false`.  Each result carries the file names sent to
the player via `PlayFile`, in order. -/

/-- Playback binding mode, `PlayMode::{PlayOne, Playlist}`. -/
inductive PlayMode where
  | playOne
  | playlist
deriving DecidableEq, Repr

/-- Queue-exhaustion policy, `RepeatMode::{None, RepeatOne, RepeatAll}`. -/
inductive RepeatMode where
  | none
  | repeatOne
  | repeatAll
deriving DecidableEq, Repr

/-- Engine playback status, `PlayerState` from `src/player/mod.rs`. -/
inductive PlayerState where
  | playing
  | paused
  | stopped
deriving DecidableEq, Repr

/-- The playback-orchestration fragment of the `AppEvent` enum from
`src/actions/events.rs`.  The browsing / search / key constructors,
whose handlers do not touch the playback state modelled here, are
omitted; `error` and `fatalError` hit the dispatcher's wildcard
`_ => {}` arm. -/
inductive AppEvent where
  | playTrack (track : TrackInfo)
  | playPlaylist
  | addTracksToQueue (tracks : List TrackInfo)
  | setNowPlaying (info : TrackInfo)
  | playerStateChanged (state : PlayerState)
  | titleChanged (title : String)
  | durationChanged (dur : Nat)
  | trackFinished
  | tick
  | exitApplication
  | error (msg : String)
  | fatalError (msg : String)
deriving DecidableEq, Repr

/-- The dispatcher-owned application state: the fields of `App` read
or written by the embedded arms of `process_events`
(`src/actions/events.rs`).  `current_queue_idx` indexes the published
queue snapshot; `queue` is the playback queue. -/
structure AppState where
  play_mode : PlayMode
  repeat_mode : RepeatMode
  current_queue_idx : Option Nat
  now_playing : Option TrackInfo
  player_track_name : Option String
  player_duration : Option Nat
  player_time : Option Nat
  player_state : PlayerState
  queue : Queue
deriving DecidableEq, Repr

/-- Outcome of one iteration of the dispatcher loop: continue with the
next event, end the loop returning `Ok` (the `ExitApplication` break,
or an early `return Ok(())`), or end it with an error propagated by
`?`.  Each outcome carries the post-state and the file names sent to
the audio player during the iteration. -/
inductive StepResult where
  | cont (s : AppState) (sent : List String)
  | ret (s : AppState) (sent : List String)
  | err (s : AppState) (sent : List String)
deriving DecidableEq, Repr

/-- The post-state carried by a `StepResult`. -/
def StepResult.state : StepResult → AppState
  | StepResult.cont s _ => s
  | StepResult.ret s _ => s
  | StepResult.err s _ => s

/-- The `PlayFile` file names carried by a `StepResult`. -/
def StepResult.sent : StepResult → List String
  | StepResult.cont _ v => v
  | StepResult.ret _ v => v
  | StepResult.err _ v => v

/-- The selection-advance computation of the `TrackFinished` arm
(`src/actions/events.rs`, lines 297–308): keep the index under
`RepeatOne`; otherwise advance, wrapping to `0` under `RepeatAll` and
clearing the selection otherwise. -/
def nextQueueIdx (repeat_mode : RepeatMode) (idx total_tracks : Nat) :
    Option Nat :=
  if repeat_mode = RepeatMode.repeatOne then Option.some idx
  else if idx + 1 < total_tracks then Option.some (idx + 1)
  else if repeat_mode = RepeatMode.repeatAll then Option.some 0
  else Option.none

/-- One iteration of `process_events` (`src/actions/events.rs`,
lines 131–371): the `ExitApplication` check comes before the match;
each embedded arm follows its Rust source line by line.  In the
`TrackFinished` arm the `return Ok(())` under `total_tracks == 0`
exits `process_events` itself (the arm is inline in the loop), hence
`StepResult.ret`. -/
def process_events_step (sendOk : Bool) (st : AppState) :
    AppEvent → StepResult
  | AppEvent.exitApplication => StepResult.ret st []
  | AppEvent.playTrack track =>
      -- `app.play_mode = PlayMode::PlayOne; app.audio_player.play_file(..)?;
      --  app.now_playing = Some(track);`
      let st1 := { st with play_mode := PlayMode.playOne }
      if sendOk then
        StepResult.cont { st1 with now_playing := Option.some track }
          [track.filename]
      else StepResult.err st1 []
  | AppEvent.playPlaylist =>
      -- `app.play_mode = PlayMode::Playlist;` then, when no current
      -- selection exists and the snapshot is non-empty, select index 0
      -- of the snapshot and play `tracks.get(0)`.
      let st1 := { st with play_mode := PlayMode.playlist }
      match st1.current_queue_idx with
      | Option.some _ => StepResult.cont st1 []
      | Option.none =>
        if st1.queue.tracks.isEmpty then StepResult.cont st1 []
        else
          let st2 := { st1 with current_queue_idx := Option.some 0 }
          match st2.queue.tracks.get? 0 with
          | Option.some track =>
            if sendOk then
              StepResult.cont { st2 with now_playing := Option.some track }
                [track.filename]
            else StepResult.err st2 []
          | Option.none => StepResult.cont st2 []
  | AppEvent.addTracksToQueue tracks =>
      StepResult.cont { st with queue := st.queue.add_tracks tracks } []
  | AppEvent.setNowPlaying info =>
      StepResult.cont { st with now_playing := Option.some info } []
  | AppEvent.playerStateChanged state =>
      StepResult.cont { st with player_state := state } []
  | AppEvent.titleChanged title =>
      StepResult.cont { st with player_track_name := Option.some title } []
  | AppEvent.durationChanged dur =>
      StepResult.cont { st with player_duration := Option.some dur } []
  | AppEvent.trackFinished =>
      -- `app.player_time = app.player_duration;` then the Playlist-mode
      -- advance logic over the snapshot (lines 283–320).
      let st1 := { st with player_time := st.player_duration }
      if st1.play_mode = PlayMode.playlist then
        let tracks := st1.queue.tracks
        let total_tracks := tracks.length
        if total_tracks = 0 then
          -- `app.current_queue_idx = None; return Ok(());`
          StepResult.ret { st1 with current_queue_idx := Option.none } []
        else
          match st1.current_queue_idx with
          | Option.none => StepResult.cont st1 []
          | Option.some idx =>
            let newIdx := nextQueueIdx st1.repeat_mode idx total_tracks
            let st2 := { st1 with current_queue_idx := newIdx }
            match newIdx with
            | Option.some valid_idx =>
              match tracks.get? valid_idx with
              | Option.some track =>
                if sendOk then
                  StepResult.cont { st2 with now_playing := Option.some track }
                    [track.filename]
                else StepResult.err st2 []
              | Option.none => StepResult.cont st2 []
            | Option.none =>
              StepResult.cont { st2 with now_playing := Option.none } []
      else StepResult.cont st1 []
  | AppEvent.tick => StepResult.cont st []
  | AppEvent.error _ => StepResult.cont st []
  | AppEvent.fatalError _ => StepResult.cont st []

/-- The state reached after `n` consecutive `TrackFinished` events,
each processed by one dispatcher iteration. -/
def iterTrackFinished (sendOk : Bool) (st : AppState) : Nat → AppState
  | 0 => st
  | n + 1 =>
    (process_events_step sendOk (iterTrackFinished sendOk st n)
      AppEvent.trackFinished).state

/-- Whether a step lets the dispatcher loop continue with the next
event. -/
def StepResult.isCont : StepResult → Bool
  | StepResult.cont _ _ => true
  | _ => false

/-- A dispatcher state in Playlist mode whose queue — and hence whose
published snapshot — is empty, while a track is still current (the
state after the playlist was cleared mid-playback). -/
def stEmptyQueue : AppState :=
  { play_mode := PlayMode.playlist, repeat_mode := RepeatMode.none
    current_queue_idx := Option.some 0, now_playing := Option.some trackA
    player_track_name := Option.none, player_duration := Option.some 180
    player_time := Option.none, player_state := PlayerState.playing
    queue := Queue.new }

/-- **C1, code bug.** The dispatcher loop is supposed to terminate
only on `ExitApplication` (its own doc comment says it "loops until a
'quit' event is received or the event channel is closed"); but a
`TrackFinished` event in Playlist mode with an empty queue snapshot
hits `return Ok(())` inside the inline arm (`src/actions/events.rs`,
line 293), which returns from `process_events` itself and terminates
the loop: the step result is `ret`, the same loop-ending outcome as
`ExitApplication`, for an event that is not `ExitApplication`. -/
theorem trackFinished_empty_queue_ends_loop :
    process_events_step true stEmptyQueue AppEvent.trackFinished =
      StepResult.ret
        { stEmptyQueue with
          player_time := Option.some 180
          current_queue_idx := Option.none } [] ∧
    process_events_step true stEmptyQueue AppEvent.exitApplication =
      StepResult.ret stEmptyQueue [] ∧
    AppEvent.trackFinished ≠ AppEvent.exitApplication :=
  ⟨rfl, rfl, by decide⟩

/-- A quiescent dispatcher state: nothing playing, empty queue. -/
def stIdle : AppState :=
  { play_mode := PlayMode.playlist, repeat_mode := RepeatMode.none
    current_queue_idx := Option.none, now_playing := Option.none
    player_track_name := Option.none, player_duration := Option.none
    player_time := Option.none, player_state := PlayerState.stopped
    queue := Queue.new }

/-- **C2, counterexample.** When the audio-player worker's receiver is
gone (`sendOk = false`), the `PlayTrack` handler's
`audio_player.play_file(..)?` propagates the send error out of
`process_events`: the step result is `err` — the loop aborts — and no
error event is reported; the claim that the dispatcher reports a
non-fatal error event and continues with the next event is false. -/
theorem failed_send_aborts_dispatcher_cex :
    process_events_step false stIdle (AppEvent.playTrack trackA) =
      StepResult.err { stIdle with play_mode := PlayMode.playOne } [] ∧
    (process_events_step false stIdle (AppEvent.playTrack trackA)).isCont
      = false :=
  ⟨rfl, rfl⟩

/-- **C2, amended.** A failed command send to the audio-player worker
(receiver already gone) is propagated by `?` out of `process_events`:
from every dispatcher state, a `PlayTrack` event with the worker
channel closed makes the loop abort with an error (`err`), after the
handler has already set `PlayMode::PlayOne`; no command is delivered
and no error event is emitted.  (Worker-internal errors, by contrast,
are sent back to the dispatcher as events by `spawn_player_worker`
rather than crossing the thread boundary as panics.) -/
theorem failed_send_aborts_dispatcher (st : AppState) (t : TrackInfo) :
    process_events_step false st (AppEvent.playTrack t) =
      StepResult.err { st with play_mode := PlayMode.playOne } [] ∧
    (process_events_step false st (AppEvent.playTrack t)).isCont = false ∧
    (process_events_step false st (AppEvent.playTrack t)).sent = [] := by
  refine ⟨rfl, ?_, ?_⟩ <;> rfl

lemma trackFinished_step_core (sendOk : Bool) (st : AppState) (i : Nat)
    (hm : st.play_mode = PlayMode.playlist)
    (hi : st.current_queue_idx = Option.some i)
    (hN : st.queue.tracks.length ≠ 0) :
    (process_events_step sendOk st AppEvent.trackFinished).state.current_queue_idx
        = nextQueueIdx st.repeat_mode i st.queue.tracks.length ∧
    (process_events_step sendOk st AppEvent.trackFinished).state.play_mode
        = st.play_mode ∧
    (process_events_step sendOk st AppEvent.trackFinished).state.repeat_mode
        = st.repeat_mode ∧
    (process_events_step sendOk st AppEvent.trackFinished).state.queue
        = st.queue := by
  simp only [process_events_step, hm, hi, if_pos rfl, if_neg hN]
  cases hidx : nextQueueIdx st.repeat_mode i st.queue.tracks.length with
  | none => simp [StepResult.state]
  | some v =>
    cases hg : st.queue.tracks[v]? with
    | none => simp [StepResult.state, hg]
    | some track => cases sendOk <;> simp [StepResult.state, hg]

lemma nextQueueIdx_noRepeat (i N : Nat) :
    nextQueueIdx RepeatMode.none i N =
      if i + 1 < N then Option.some (i + 1) else Option.none := by
  simp [nextQueueIdx]

lemma nextQueueIdx_repeatAll (i N : Nat) :
    nextQueueIdx RepeatMode.repeatAll i N =
      Option.some (if i + 1 < N then i + 1 else 0) := by
  by_cases h : i + 1 < N <;> simp [nextQueueIdx, h]

lemma iterTF_noRepeat_inv (st : AppState) (N : Nat)
    (hm : st.play_mode = PlayMode.playlist)
    (hr : st.repeat_mode = RepeatMode.none)
    (hN : st.queue.tracks.length = N) (hpos : 0 < N)
    (hi : st.current_queue_idx = Option.some 0) :
    ∀ k, k ≤ N →
      (iterTrackFinished true st k).play_mode = PlayMode.playlist ∧
      (iterTrackFinished true st k).repeat_mode = RepeatMode.none ∧
      (iterTrackFinished true st k).queue = st.queue ∧
      (iterTrackFinished true st k).current_queue_idx =
        (if k < N then Option.some k else Option.none) := by
  intro k
  induction k with
  | zero =>
    intro _
    exact ⟨hm, hr, rfl, by rw [if_pos hpos]; exact hi⟩
  | succ k ih =>
    intro hk1
    have hkN : k < N := Nat.lt_of_succ_le hk1
    obtain ⟨pm, rm, qe, idx⟩ := ih (Nat.le_of_succ_le hk1)
    rw [if_pos hkN] at idx
    have hlen : (iterTrackFinished true st k).queue.tracks.length ≠ 0 := by
      rw [qe, hN]; omega
    obtain ⟨cidx, cpm, crm, cq⟩ :=
      trackFinished_step_core true (iterTrackFinished true st k) k pm idx hlen
    refine ⟨?_, ?_, ?_, ?_⟩
    · simp only [iterTrackFinished]; rw [cpm, pm]
    · simp only [iterTrackFinished]; rw [crm, rm]
    · simp only [iterTrackFinished]; rw [cq, qe]
    · simp only [iterTrackFinished]
      rw [cidx, rm, qe, hN, nextQueueIdx_noRepeat]

/-- **C5.** With `RepeatMode::None` and `PlayMode::Playlist`, a queue
snapshot of length `N ≥ 1` and current selection index `0`: after `k`
`TrackFinished` events with `k < N` the selection is still
`Some k`, and after exactly `N` such events it is `None`. -/
theorem repeatNone_selection_exhausts_after_N (st : AppState) (N : Nat)
    (hm : st.play_mode = PlayMode.playlist)
    (hr : st.repeat_mode = RepeatMode.none)
    (hN : st.queue.tracks.length = N) (hpos : 1 ≤ N)
    (hi : st.current_queue_idx = Option.some 0) :
    (∀ k, k < N →
      (iterTrackFinished true st k).current_queue_idx = Option.some k) ∧
    (iterTrackFinished true st N).current_queue_idx = Option.none := by
  constructor
  · intro k hk
    obtain ⟨_, _, _, idx⟩ := iterTF_noRepeat_inv st N hm hr hN hpos hi k hk.le
    rwa [if_pos hk] at idx
  · obtain ⟨_, _, _, idx⟩ := iterTF_noRepeat_inv st N hm hr hN hpos hi N le_rfl
    rwa [if_neg (lt_irrefl N)] at idx

/-- A dispatcher state playing the first of two queued tracks in
Playlist mode, with `RepeatMode::None`. -/
def stPlaylistTwo : AppState :=
  { play_mode := PlayMode.playlist, repeat_mode := RepeatMode.none
    current_queue_idx := Option.some 0, now_playing := Option.some trackA
    player_track_name := Option.none, player_duration := Option.some 180
    player_time := Option.none, player_state := PlayerState.playing
    queue := Queue.new.add_tracks [trackA, trackB] }

/-- **C5, witness.** The exhaustion theorem at the concrete two-track
playlist: selections `Some 0`, `Some 1`, then `None` after the second
`TrackFinished`. -/
theorem repeatNone_selection_exhausts_witness :
    (stPlaylistTwo.play_mode = PlayMode.playlist ∧
      stPlaylistTwo.repeat_mode = RepeatMode.none ∧
      stPlaylistTwo.queue.tracks.length = 2 ∧ 1 ≤ 2 ∧
      stPlaylistTwo.current_queue_idx = Option.some 0) ∧
    (iterTrackFinished true stPlaylistTwo 0).current_queue_idx
      = Option.some 0 ∧
    (iterTrackFinished true stPlaylistTwo 1).current_queue_idx
      = Option.some 1 ∧
    (iterTrackFinished true stPlaylistTwo 2).current_queue_idx
      = Option.none :=
  ⟨⟨rfl, rfl, rfl, by decide, rfl⟩,
    (repeatNone_selection_exhausts_after_N stPlaylistTwo 2 rfl rfl rfl
      (by decide) rfl).1 0 (by decide),
    (repeatNone_selection_exhausts_after_N stPlaylistTwo 2 rfl rfl rfl
      (by decide) rfl).1 1 (by decide),
    (repeatNone_selection_exhausts_after_N stPlaylistTwo 2 rfl rfl rfl
      (by decide) rfl).2⟩

lemma iterTF_repeatAll_inv (st : AppState) (i : Nat)
    (hm : st.play_mode = PlayMode.playlist)
    (hr : st.repeat_mode = RepeatMode.repeatAll)
    (hne : st.queue.tracks ≠ [])
    (hi : st.current_queue_idx = Option.some i) :
    ∀ k,
      (iterTrackFinished true st k).play_mode = PlayMode.playlist ∧
      (iterTrackFinished true st k).repeat_mode = RepeatMode.repeatAll ∧
      (iterTrackFinished true st k).queue = st.queue ∧
      ∃ j, (iterTrackFinished true st k).current_queue_idx = Option.some j := by
  intro k
  induction k with
  | zero => exact ⟨hm, hr, rfl, i, hi⟩
  | succ k ih =>
    obtain ⟨pm, rm, qe, j, idx⟩ := ih
    have hlen : (iterTrackFinished true st k).queue.tracks.length ≠ 0 := by
      rw [qe]
      exact fun h => hne (List.length_eq_zero.mp h)
    obtain ⟨cidx, cpm, crm, cq⟩ :=
      trackFinished_step_core true (iterTrackFinished true st k) j pm idx hlen
    refine ⟨?_, ?_, ?_, ?_⟩
    · simp only [iterTrackFinished]; rw [cpm, pm]
    · simp only [iterTrackFinished]; rw [crm, rm]
    · simp only [iterTrackFinished]; rw [cq, qe]
    · simp only [iterTrackFinished]
      rw [cidx, rm, nextQueueIdx_repeatAll]
      exact ⟨_, rfl⟩

/-- **C6.** With `RepeatMode::RepeatAll` and `PlayMode::Playlist`,
from any state with a non-empty queue snapshot and a `Some` selection
index, no number of `TrackFinished` events ever makes the selection
`None`; each event takes index `j` to `j + 1` when that is still in
range and wraps it to `0` otherwise. -/
theorem repeatAll_selection_never_none (st : AppState) (i : Nat)
    (hm : st.play_mode = PlayMode.playlist)
    (hr : st.repeat_mode = RepeatMode.repeatAll)
    (hne : st.queue.tracks ≠ [])
    (hi : st.current_queue_idx = Option.some i) :
    (∀ k, ∃ j,
      (iterTrackFinished true st k).current_queue_idx = Option.some j) ∧
    (∀ k j,
      (iterTrackFinished true st k).current_queue_idx = Option.some j →
      (iterTrackFinished true st (k + 1)).current_queue_idx =
        Option.some
          (if j + 1 < st.queue.tracks.length then j + 1 else 0)) := by
  constructor
  · intro k
    exact (iterTF_repeatAll_inv st i hm hr hne hi k).2.2.2
  · intro k j idx
    obtain ⟨pm, rm, qe, _⟩ := iterTF_repeatAll_inv st i hm hr hne hi k
    have hlen : (iterTrackFinished true st k).queue.tracks.length ≠ 0 := by
      rw [qe]
      exact fun h => hne (List.length_eq_zero.mp h)
    obtain ⟨cidx, _, _, _⟩ :=
      trackFinished_step_core true (iterTrackFinished true st k) j pm idx hlen
    simp only [iterTrackFinished]
    rw [cidx, rm, qe, nextQueueIdx_repeatAll]

/-- The two-track Playlist state again, now with
`RepeatMode::RepeatAll`. -/
def stRepeatAllTwo : AppState :=
  { stPlaylistTwo with repeat_mode := RepeatMode.repeatAll }

/-- **C6, witness.** The repeat-all theorem at the concrete two-track
playlist: after five `TrackFinished` events the selection is still
`Some`, and from `Some 1` the next event wraps to `Some 0`. -/
theorem repeatAll_selection_never_none_witness :
    (stRepeatAllTwo.play_mode = PlayMode.playlist ∧
      stRepeatAllTwo.repeat_mode = RepeatMode.repeatAll ∧
      stRepeatAllTwo.queue.tracks ≠ [] ∧
      stRepeatAllTwo.current_queue_idx = Option.some 0) ∧
    (∃ j, (iterTrackFinished true stRepeatAllTwo 5).current_queue_idx
      = Option.some j) :=
  ⟨⟨rfl, rfl, by decide, rfl⟩,
    (repeatAll_selection_never_none stRepeatAllTwo 0 rfl rfl (by decide)
      rfl).1 5⟩

/-- A dispatcher state with playback history: the two-track queue
after one `next()`, so `played = [trackA]`, `queued = [trackB]`, the
published snapshot still `[trackA, trackB]`, and no current
selection. -/
def stWithHistory : AppState :=
  { play_mode := PlayMode.playOne, repeat_mode := RepeatMode.none
    current_queue_idx := Option.none, now_playing := Option.none
    player_track_name := Option.none, player_duration := Option.none
    player_time := Option.none, player_state := PlayerState.stopped
    queue := (Queue.new.add_tracks [trackA, trackB]).next.2 }

/-- **C7, counterexample.** The claim says that, with no current
selection, `PlayPlaylist` issues `PlayFile` for the first track of the
*queued* segment regardless of the played segment.  In `stWithHistory`
the queued segment is `[trackB]`, yet the handler reads index `0` of
the published snapshot (`tracks.get(0)`, which is played ++ queued),
so it plays and selects `trackA` — a played track, not the queued
head. -/
theorem playPlaylist_plays_snapshot_head_cex :
    stWithHistory.queue.queued = [trackB] ∧
    stWithHistory.queue.played = [trackA] ∧
    (process_events_step true stWithHistory AppEvent.playPlaylist).sent
      = [trackA.filename] ∧
    (process_events_step true stWithHistory AppEvent.playPlaylist).state.now_playing
      = Option.some trackA ∧
    trackA.filename ≠ trackB.filename :=
  ⟨rfl, rfl, rfl, rfl, by decide⟩

/-- **C7, amended.** `PlayPlaylist` sets `PlayMode::Playlist`; when no
current selection exists and the snapshot is non-empty, it selects
index `0` and plays the first track of the *published snapshot* —
which is the played segment followed by the queued segment, so it
equals the first queued track only when the played segment is empty.
-/
theorem playPlaylist_selects_snapshot_head (st : AppState) (t : TrackInfo)
    (h1 : st.current_queue_idx = Option.none)
    (h2 : st.queue.tracks.get? 0 = Option.some t) :
    process_events_step true st AppEvent.playPlaylist =
      StepResult.cont
        { st with
          play_mode := PlayMode.playlist
          current_queue_idx := Option.some 0
          now_playing := Option.some t }
        [t.filename] ∧
    (process_events_step true st AppEvent.playPlaylist).state.play_mode
      = PlayMode.playlist := by
  have hne : st.queue.tracks.isEmpty = false := by
    cases htr : st.queue.tracks with
    | nil => rw [htr] at h2; simp at h2
    | cons a l => simp [htr]
  have hmain : process_events_step true st AppEvent.playPlaylist =
      StepResult.cont
        { st with
          play_mode := PlayMode.playlist
          current_queue_idx := Option.some 0
          now_playing := Option.some t }
        [t.filename] := by
    simp only [process_events_step, h1, hne, Bool.false_eq_true, if_false, h2,
      if_true]
  exact ⟨hmain, by rw [hmain]; rfl⟩

/-- A fresh-queue state for the witness: `played` empty, snapshot
`[trackA, trackB]`, no selection. -/
def stFreshQueue : AppState :=
  { stWithHistory with queue := Queue.new.add_tracks [trackA, trackB] }

/-- **C7, witness.** The amended theorem at the fresh two-track queue:
`PlayPlaylist` selects index 0 and plays `trackA`, the snapshot head
(which here is also the queued head, the played segment being
empty). -/
theorem playPlaylist_selects_snapshot_head_witness :
    (stFreshQueue.current_queue_idx = Option.none ∧
      stFreshQueue.queue.tracks.get? 0 = Option.some trackA) ∧
    (process_events_step true stFreshQueue AppEvent.playPlaylist =
      StepResult.cont
        { stFreshQueue with
          play_mode := PlayMode.playlist
          current_queue_idx := Option.some 0
          now_playing := Option.some trackA }
        [trackA.filename] ∧
    (process_events_step true stFreshQueue AppEvent.playPlaylist).state.play_mode
      = PlayMode.playlist) :=
  ⟨⟨rfl, rfl⟩, playPlaylist_selects_snapshot_head stFreshQueue trackA rfl rfl⟩

/-! ## The audio-engine worker (`src/player/mod.rs`,
`src/player/commands.rs`)

`audio_player_worker` keeps two engine-reported flags (`is_paused`,
initially `false`, and `is_idle`, initially `true`) and the previous
iteration's computed `PlayerState` (initially `Stopped`).  Each
iteration of `process_mpv_events` waits for at most one MPV event,
updates the flags, recomputes the state, and emits a
`PlayerStateChanged` event exactly when the computed state differs
from the stored one, followed by any content event derived from the
MPV event.  The numeric property notifications (`duration`,
`time-pos`, `volume`) carry `f64` values and do not interact with the
state machine; they are left out of the embedded event type.  Channel
sends are modelled as succeeding (a failed send makes the worker exit
with an error, which is outside these claims). -/

/-- `AudioPlayer::player_state` (`src/player/mod.rs`, lines 64–72):
the engine state as a pure function of the two flags. -/
def player_state (is_paused is_idle : Bool) : PlayerState :=
  if is_idle then PlayerState.stopped
  else if is_paused then PlayerState.paused
  else PlayerState.playing

/-- The worker's loop-local state: the two engine flags and the
previously computed player state. -/
structure WorkerState where
  is_paused : Bool
  is_idle : Bool
  current_state : PlayerState
deriving DecidableEq, Repr

/-- The worker's initial loop state (`src/player/commands.rs`,
lines 127–130): not paused, idle, `Stopped`. -/
def audio_worker_init : WorkerState :=
  { is_paused := false, is_idle := true
    current_state := PlayerState.stopped }

/-- The MPV notifications the worker's state machine reacts to
(`process_mpv_events`, lines 190–228).  `otherEvent` stands for every
notification that matches none of the interesting patterns. -/
inductive MpvEvent where
  | propertyMediaTitle (title : String)
  | propertyPause (pause : Bool)
  | propertyIdleActive (idle_active : Bool)
  | endFileEof
  | endFileOtherReason
  | otherEvent
deriving DecidableEq, Repr

/-- The inner `match` of `process_mpv_events`: update the flags and
compute the optional content event (`TitleChanged`, `TrackFinished`;
the flag changes themselves produce `None`). -/
def updateFlagsAndContent (st : WorkerState) :
    MpvEvent → WorkerState × Option AppEvent
  | MpvEvent.propertyMediaTitle title =>
      (st, Option.some (AppEvent.titleChanged title))
  | MpvEvent.propertyPause pause =>
      ({ st with is_paused := pause }, Option.none)
  | MpvEvent.propertyIdleActive idle_active =>
      ({ st with is_idle := idle_active }, Option.none)
  | MpvEvent.endFileEof => (st, Option.some AppEvent.trackFinished)
  | MpvEvent.endFileOtherReason => (st, Option.none)
  | MpvEvent.otherEvent => (st, Option.none)

/-- One iteration of `process_mpv_events` (`src/player/commands.rs`,
lines 183–245): `Option.none` models `wait_event` timing out with no
event.  Returns the updated worker state and the application events
sent, in order — the state-change event, when emitted, precedes the
content event of the same iteration. -/
def process_mpv_events (st : WorkerState) :
    Option MpvEvent → WorkerState × List AppEvent
  | Option.none => (st, [])
  | Option.some mpv_event =>
    let upd := updateFlagsAndContent st mpv_event
    let st1 := upd.1
    let app_event := upd.2
    let new_player_state := player_state st1.is_paused st1.is_idle
    if new_player_state ≠ st1.current_state then
      ({ st1 with current_state := new_player_state },
        AppEvent.playerStateChanged new_player_state :: app_event.toList)
    else (st1, app_event.toList)

/-- Whether a list of application events contains a
`PlayerStateChanged` notification. -/
def emitsStateChange (l : List AppEvent) : Bool :=
  l.any (fun e =>
    match e with
    | AppEvent.playerStateChanged _ => true
    | _ => false)

/-- **C8.** (1) The worker's state is the pure function of the two
flags: `Stopped` when idle, else `Paused` when paused, else
`Playing`.  (2) An iteration emits a `PlayerStateChanged` event iff
the state computed from the updated flags differs from the previous
iteration's.  (3) From the initial worker state, feeding
`idle=true` then `idle=false` (pause staying `false`) emits exactly
one state-change event across the two iterations: `Stopped` to
`Playing`. -/
theorem worker_state_change_events :
    (∀ p i, player_state p i =
      (if i then PlayerState.stopped
        else if p then PlayerState.paused else PlayerState.playing)) ∧
    (∀ (st : WorkerState) (ev : MpvEvent),
      emitsStateChange (process_mpv_events st (Option.some ev)).2 = true ↔
        player_state (updateFlagsAndContent st ev).1.is_paused
            (updateFlagsAndContent st ev).1.is_idle
          ≠ st.current_state) ∧
    ((process_mpv_events audio_worker_init
        (Option.some (MpvEvent.propertyIdleActive true))).2 ++
      (process_mpv_events
        (process_mpv_events audio_worker_init
          (Option.some (MpvEvent.propertyIdleActive true))).1
        (Option.some (MpvEvent.propertyIdleActive false))).2
      = [AppEvent.playerStateChanged PlayerState.playing]) ∧
    (process_mpv_events audio_worker_init
      (Option.some (MpvEvent.propertyIdleActive true))).1.current_state
      = PlayerState.stopped ∧
    (process_mpv_events
      (process_mpv_events audio_worker_init
        (Option.some (MpvEvent.propertyIdleActive true))).1
      (Option.some (MpvEvent.propertyIdleActive false))).1.current_state
      = PlayerState.playing := by
  refine ⟨fun p i => rfl, ?_, by decide, by decide, by decide⟩
  intro st ev
  have hcs : (updateFlagsAndContent st ev).1.current_state
      = st.current_state := by
    cases ev <;> rfl
  have hct : emitsStateChange (updateFlagsAndContent st ev).2.toList
      = false := by
    cases ev <;> rfl
  rw [← hcs]
  simp only [process_mpv_events]
  by_cases hne : player_state (updateFlagsAndContent st ev).1.is_paused
      (updateFlagsAndContent st ev).1.is_idle
    = (updateFlagsAndContent st ev).1.current_state
  · simp [hne, emitsStateChange, hct]
    intro s hs
    rw [hs] at hct
    simp [emitsStateChange] at hct
    exact hct
  · simp [hne, emitsStateChange]

end Chooui
